import Mathlib

/-!
Shallow embedding of the expression engine of the Boolean Algebra Visualizer:
the normalizer, tokenizer, recursive-descent parser, AST evaluator and
truth-table generator of the `BooleanExpression` class (`app.js`), and the
SOP extractor `Visualizer.extractSOP` (`public/visualizer.js`).

JavaScript exceptions are modelled with `Except String`; the JavaScript value
`undefined` (which a symbol-table lookup of an absent key produces) is
modelled by `Option Bool` with `none` standing for `undefined`, and the
truthiness test of `cond ? 1 : 0` / `!x` / `&&` / `||` is `truthy`.
-/

deriving instance DecidableEq for Except

namespace BoolViz

/-- The whitespace class of the JavaScript regex used by the tokenizer
when it skips whitespace. -/
def jsWhitespace (c : Char) : Bool :=
  c == ' ' || c == '\t' || c == '\n' || c == '\r' ||
  c == '\x0b' || c == '\x0c' ||
  c.toNat == 0xA0 || c.toNat == 0x1680 ||
  (0x2000 ≤ c.toNat && c.toNat ≤ 0x200A) ||
  c.toNat == 0x2028 || c.toNat == 0x2029 || c.toNat == 0x202F ||
  c.toNat == 0x205F || c.toNat == 0x3000 || c.toNat == 0xFEFF

/-- One character of `BooleanExpression.normalize`: the chained
`replace` calls rewriting the AND dot to an asterisk, the overline and the
exclamation mark to an apostrophe, the plus sign to a vertical bar, followed
by `toLowerCase`. -/
def normChar (c : Char) : Char :=
  if c == '·' then '*'
  else if c == '¯' then '\x27'
  else if c == '!' then '\x27'
  else if c == '+' then '|'
  else c.toLower

/-- `String.prototype.trim`: strip leading and trailing whitespace. -/
def jsTrim (s : List Char) : List Char :=
  ((s.dropWhile jsWhitespace).reverse.dropWhile jsWhitespace).reverse

/-- `BooleanExpression.normalize`: symbol rewriting, lowercasing, trimming. -/
def normalize (expr : String) : String :=
  (jsTrim (expr.data.map normChar)).asString

/-- Insert a character into an ascending list of characters. -/
def insertSorted (c : Char) : List Char → List Char
  | [] => [c]
  | d :: ds => if c.toNat ≤ d.toNat then c :: d :: ds else d :: insertSorted c ds

/-- Sort a list of characters ascending by code point, as
`Array.prototype.sort` does for single-character strings. -/
def sortChars : List Char → List Char
  | [] => []
  | c :: cs => insertSorted c (sortChars cs)

/-- `BooleanExpression.extractVariables`: all regex matches of a lowercase
letter in the normalized expression, deduplicated keeping first occurrences
(`Set`), then sorted ascending. -/
def extractVariables (normalized : String) : List Char :=
  sortChars ((normalized.data.filter Char.isLower).eraseDups)

/-- Token kinds produced by `BooleanExpression.tokenize`. -/
inductive Token where
  | LPAREN
  | RPAREN
  | NOT
  | AND
  | OR
  | VAR (value : Char)
deriving DecidableEq, Repr

/-- The surface text a token carries (its `value` field), used in the
parser error message for an unexpected token. -/
def tokenValue : Token → String
  | .LPAREN => "("
  | .RPAREN => ")"
  | .NOT => "\x27"
  | .AND => "*"
  | .OR => "|"
  | .VAR c => c.toString

/-- The lexer error message: `Unknown character: <c> at position <i>`, the
character quoted in apostrophes. -/
def lexErrMsg (c : Char) (i : Nat) : String :=
  "Unknown character: \x27" ++ c.toString ++ "\x27 at position " ++ toString i

/-- The character-by-character scan of `BooleanExpression.tokenize`, with
`i` the zero-based position of the head of `cs` in the input string. -/
def tokenizeGo : List Char → Nat → Except String (List Token)
  | [], _ => .ok []
  | c :: rest, i =>
    if jsWhitespace c then tokenizeGo rest (i + 1)
    else if c == '(' then (tokenizeGo rest (i + 1)).map (Token.LPAREN :: ·)
    else if c == ')' then (tokenizeGo rest (i + 1)).map (Token.RPAREN :: ·)
    else if c == '\x27' then (tokenizeGo rest (i + 1)).map (Token.NOT :: ·)
    else if c == '*' then (tokenizeGo rest (i + 1)).map (Token.AND :: ·)
    else if c == '|' then (tokenizeGo rest (i + 1)).map (Token.OR :: ·)
    else if c.isLower || c.isDigit then (tokenizeGo rest (i + 1)).map (Token.VAR c :: ·)
    else .error (lexErrMsg c i)

/-- `BooleanExpression.tokenize` on a (normalized) string. -/
def tokenize (expr : String) : Except String (List Token) :=
  tokenizeGo expr.data 0

/-- The string-tagged AST objects of the engine, as a sum type:
`VAR` / `NOT` / `AND` / `OR` nodes. -/
inductive Ast where
  | var (value : Char)
  | not (operand : Ast)
  | and (left right : Ast)
  | or (left right : Ast)
deriving DecidableEq, Repr

mutual

/-- `parseOr` of `BooleanExpression.parse`: one `parseAnd`, then the
left-associative loop over OR tokens (`parseOrLoop`). -/
def parseOr (fuel : Nat) (toks : List Token) : Except String (Ast × List Token) :=
  match fuel with
  | 0 => .error "fuel exhausted"
  | f + 1 => do
    let (left, rest) ← parseAnd f toks
    parseOrLoop f left rest

/-- The `while`-loop of `parseOr`: as long as the next token is OR, consume
it, parse another AND-level operand and fold it in from the left. -/
def parseOrLoop (fuel : Nat) (left : Ast) (toks : List Token) :
    Except String (Ast × List Token) :=
  match fuel with
  | 0 => .error "fuel exhausted"
  | f + 1 =>
    match toks with
    | Token.OR :: rest => do
      let (right, rest2) ← parseAnd f rest
      parseOrLoop f (Ast.or left right) rest2
    | _ => .ok (left, toks)

/-- `parseAnd`: one `parseNot`, then the left-associative loop over AND
tokens (`parseAndLoop`). -/
def parseAnd (fuel : Nat) (toks : List Token) : Except String (Ast × List Token) :=
  match fuel with
  | 0 => .error "fuel exhausted"
  | f + 1 => do
    let (left, rest) ← parseNot f toks
    parseAndLoop f left rest

/-- The `while`-loop of `parseAnd`. -/
def parseAndLoop (fuel : Nat) (left : Ast) (toks : List Token) :
    Except String (Ast × List Token) :=
  match fuel with
  | 0 => .error "fuel exhausted"
  | f + 1 =>
    match toks with
    | Token.AND :: rest => do
      let (right, rest2) ← parseNot f rest
      parseAndLoop f (Ast.and left right) rest2
    | _ => .ok (left, toks)

/-- `parseNot`: a NOT token is consumed as a PREFIX operator,
right-associatively; otherwise fall through to `parsePrimary`. -/
def parseNot (fuel : Nat) (toks : List Token) : Except String (Ast × List Token) :=
  match fuel with
  | 0 => .error "fuel exhausted"
  | f + 1 =>
    match toks with
    | Token.NOT :: rest => do
      let (operand, rest2) ← parseNot f rest
      .ok (Ast.not operand, rest2)
    | _ => parsePrimary f toks

/-- `parsePrimary`: a parenthesized expression or a VAR token; anything
else is a syntax error. -/
def parsePrimary (fuel : Nat) (toks : List Token) : Except String (Ast × List Token) :=
  match fuel with
  | 0 => .error "fuel exhausted"
  | f + 1 =>
    match toks with
    | [] => .error "Unexpected end of expression"
    | Token.LPAREN :: rest => do
      let (expr, rest2) ← parseOr f rest
      match rest2 with
      | Token.RPAREN :: rest3 => .ok (expr, rest3)
      | _ => .error "Expected closing parenthesis"
    | Token.VAR c :: rest => .ok (Ast.var c, rest)
    | t :: _ => .error ("Unexpected token: " ++ tokenValue t)

end

/-- `BooleanExpression.parse`: tokenize, run the top-level `parseOr`, and
reject trailing unconsumed tokens.  The fuel is generous enough that the
recursion of the JavaScript original is reproduced exactly on every input
that the original terminates on. -/
def parse (normalized : String) : Except String Ast := do
  let toks ← tokenize normalized
  let (ast, rest) ← parseOr (8 * toks.length + 8) toks
  if rest.isEmpty then .ok ast
  else .error "Unexpected tokens at end of expression"

/-- JavaScript truthiness of an evaluator value (`undefined` is falsy). -/
def truthy : Option Bool → Bool
  | some b => b
  | none => false

/-- `BooleanExpression.evaluateAst`.  A `VAR` node returns the symbol-table
lookup unchecked (`symbolTable[ast.value]`), so an absent variable yields
`undefined` (`none`), not an exception; `!` coerces to a boolean; `&&` and
`||` return the first operand when it decides the result, as in JavaScript. -/
def evaluateAst : Ast → (Char → Option Bool) → Option Bool
  | .var v, table => table v
  | .not e, table => some (!(truthy (evaluateAst e table)))
  | .and l r, table =>
    let a := evaluateAst l table
    if truthy a then evaluateAst r table else a
  | .or l r, table =>
    let a := evaluateAst l table
    if truthy a then a else evaluateAst r table

/-- One row of the truth table: the per-variable bits in variable order, and
the output bit. -/
structure Row where
  assigns : List (Char × Nat)
  output : Nat
deriving DecidableEq, Repr

/-- The inner loop of `generateTruthTable`: variable `j` (counting from the
index `j0` of the head of `vars`) receives bit `(i >>> (n - 1 - j)) &&& 1`. -/
def rowBitsAux (n i : Nat) : List Char → Nat → List (Char × Nat)
  | [], _ => []
  | v :: vs, j => (v, (i >>> (n - 1 - j)) &&& 1) :: rowBitsAux n i vs (j + 1)

/-- The bit assignment of row `i`: each variable paired with its bit. -/
def rowBits (vars : List Char) (i : Nat) : List (Char × Nat) :=
  rowBitsAux vars.length i vars 0

/-- The `symbolTable` object built alongside a row: a variable maps to the
boolean `bit === 1`; any other key reads as `undefined` (`none`). -/
def symbolTableOf (assigns : List (Char × Nat)) : Char → Option Bool :=
  fun c => (assigns.lookup c).map (fun b => b == 1)

/-- `BooleanExpression.generateTruthTable`: one row per integer
`i ∈ [0, 2^n)`, the output bit `evaluateAst(...) ? 1 : 0`. -/
def generateTruthTable (vars : List Char) (ast : Ast) : List Row :=
  (List.range (2 ^ vars.length)).map (fun i =>
    let assigns := rowBits vars i
    { assigns := assigns
      output := if truthy (evaluateAst ast (symbolTableOf assigns)) then 1 else 0 })

/-- The fields of a constructed `BooleanExpression` object. -/
structure BooleanExpression where
  originalExpression : String
  normalizedExpression : String
  vars : List Char
  ast : Ast
  truthTable : List Row
deriving DecidableEq, Repr

/-- The `BooleanExpression` constructor: normalize, extract variables,
parse, generate the truth table.  A thrown exception anywhere leaves no
object behind (`Except.error`). -/
def mkBooleanExpression (expression : String) : Except String BooleanExpression := do
  let n := normalize expression
  let vars := extractVariables n
  let ast ← parse n
  .ok { originalExpression := expression
        normalizedExpression := n
        vars := vars
        ast := ast
        truthTable := generateTruthTable vars ast }

/-- A literal of an SOP term: a variable name and an inversion flag. -/
structure Literal where
  name : Char
  inverted : Bool
deriving DecidableEq, Repr

/-- `Visualizer.extractSOP`: `VAR` gives one single-literal term; `NOT`
flips the inversion flag on every literal of every term of its operand;
`AND` is the cartesian-product merge (term-wise concatenation); `OR`
concatenates the two term lists. -/
def extractSOP : Ast → List (List Literal)
  | .var v => [[{ name := v, inverted := false }]]
  | .not op => (extractSOP op).map (fun term =>
      term.map (fun lit => { lit with inverted := !lit.inverted }))
  | .and l r => (extractSOP l).flatMap (fun tl => (extractSOP r).map (fun tr => tl ++ tr))
  | .or l r => extractSOP l ++ extractSOP r

/-- Flip the inversion flag of a literal (the spec wording for the NOT
case of SOP extraction). -/
def flipLiteral (lit : Literal) : Literal :=
  { lit with inverted := !lit.inverted }

/-- The SOP extraction written from the specification text: `Var(v)` one
term with one plain literal; `Not(child)` the child extraction with every
literal flipped (no De Morgan expansion); `And(l,r)` the cartesian-product
merge of the two extractions; `Or(l,r)` the concatenation of the two term
lists with no deduplication. -/
def sopSpecRef : Ast → List (List Literal)
  | .var v => [[{ name := v, inverted := false }]]
  | .not child => (sopSpecRef child).map (List.map flipLiteral)
  | .and l r => (sopSpecRef l).flatMap (fun tl => (sopSpecRef r).map (fun tr => tl ++ tr))
  | .or l r => sopSpecRef l ++ sopSpecRef r

/-- Reading one SOP literal under a total boolean assignment: the negated
variable value when the flag is set, the plain value otherwise. -/
def litEval (σ : Char → Bool) (lit : Literal) : Bool :=
  if lit.inverted then !(σ lit.name) else σ lit.name

/-- Reading one SOP term: the AND of its literals. -/
def termEval (σ : Char → Bool) (term : List Literal) : Bool :=
  term.all (litEval σ)

/-- Reading an SOP term list: the OR over its terms. -/
def sopEval (terms : List (List Literal)) (σ : Char → Bool) : Bool :=
  terms.any (termEval σ)

/-- Every NOT node of the AST has a bare variable as operand. -/
def notArgsAreVars : Ast → Bool
  | .var _ => true
  | .not (.var _) => true
  | .not _ => false
  | .and l r => notArgsAreVars l && notArgsAreVars r
  | .or l r => notArgsAreVars l && notArgsAreVars r

/-! ## Theorems -/

/-- C2: the engine rejects the input with a single variable followed by the
apostrophe NOT mark.  The README and the demo examples document the
apostrophe as a POSTFIX complement, but `parseNot` consumes a NOT token
only as a PREFIX operator, so the trailing NOT token survives the
top-level `parseOr` and the parser throws on the unconsumed token; no
truth table is produced. -/
theorem apostrophe_after_var_rejected :
    mkBooleanExpression "a\x27" = Except.error "Unexpected tokens at end of expression" := by
  rfl

/-- C3 counterexample: a variable absent from the symbol table does not
raise any error; the `undefined` lookup (`none`) propagates silently into
the boolean result, here through a NOT node into the value `true`. -/
theorem evalAst_missing_var_silent :
    evaluateAst (Ast.not (Ast.var 'q')) (fun _ => none) = some true := by
  rfl

/-- C3 amended: when the evaluator reaches a `Var` node whose name is
absent from the assignment, it returns the undefined lookup unchanged (no
exception of any kind), and the undefined value propagates through boolean
context — negating it yields `true`. -/
theorem evalAst_missing_var_propagates (table : Char → Option Bool) (v : Char)
    (h : table v = none) :
    evaluateAst (Ast.var v) table = none ∧
    evaluateAst (Ast.not (Ast.var v)) table = some true := by
  refine ⟨h, ?_⟩
  simp [evaluateAst, h, truthy]

/-- C3 amended, witness at the variable `z` and the empty symbol table. -/
theorem evalAst_missing_var_propagates_witness :
    evaluateAst (Ast.var 'z') (fun _ => none) = none ∧
    evaluateAst (Ast.not (Ast.var 'z')) (fun _ => none) = some true :=
  evalAst_missing_var_propagates (fun _ => none) 'z' rfl

/-- C4: the parser makes AND bind tighter than OR: `a|b*c` parses to
`Or(a, And(b, c))`, and under every total boolean assignment the two
inputs `a|b*c` and `a|(b*c)` evaluate to the same result. -/
theorem and_binds_tighter_than_or :
    parse (normalize "a|b*c") =
      Except.ok (Ast.or (Ast.var 'a') (Ast.and (Ast.var 'b') (Ast.var 'c'))) ∧
    ∀ σ : Char → Bool,
      (parse (normalize "a|b*c")).map (fun t => evaluateAst t (fun v => some (σ v))) =
      (parse (normalize "a|(b*c)")).map (fun t => evaluateAst t (fun v => some (σ v))) := by
  have h1 : parse (normalize "a|b*c") =
      Except.ok (Ast.or (Ast.var 'a') (Ast.and (Ast.var 'b') (Ast.var 'c'))) := by decide
  have h2 : parse (normalize "a|(b*c)") =
      Except.ok (Ast.or (Ast.var 'a') (Ast.and (Ast.var 'b') (Ast.var 'c'))) := by decide
  refine ⟨h1, fun σ => ?_⟩
  rw [h1, h2]

/-- C5: the pipeline on `(a+b)*c` normalizes the plus sign to the OR bar,
and SOP extraction on the resulting AST yields exactly the two terms
`[(a, plain), (c, plain)]` then `[(b, plain), (c, plain)]`. -/
theorem sop_extraction_example :
    normalize "(a+b)*c" = "(a|b)*c" ∧
    (mkBooleanExpression "(a+b)*c").map (fun be => extractSOP be.ast) =
      Except.ok [[{ name := 'a', inverted := false }, { name := 'c', inverted := false }],
                 [{ name := 'b', inverted := false }, { name := 'c', inverted := false }]] := by
  exact ⟨rfl, rfl⟩

/-- C6: `extractSOP` coincides with the recursive reference definition
written from the specification text, on every AST. -/
theorem extractSOP_matches_reference : ∀ t : Ast, extractSOP t = sopSpecRef t := by
  intro t
  induction t with
  | var v => rfl
  | not op ih => simp [extractSOP, sopSpecRef, ih, flipLiteral]
  | and l r ihl ihr => simp [extractSOP, sopSpecRef, ihl, ihr]
  | or l r ihl ihr => simp [extractSOP, sopSpecRef, ihl, ihr]

/-- C8: the input with a trailing binary operator fails during parsing
with the syntax error of `parsePrimary` hitting the end of the token
stream; the constructor returns no object, so no AST and no truth table
exist (all-or-nothing). -/
theorem trailing_operator_rejected :
    mkBooleanExpression "a*" = Except.error "Unexpected end of expression" := by
  rfl

/-- C9: a digit tokenizes as a VAR token and parses to a `Var` leaf, but
variable extraction matches only lowercase letters, so the variable set of
the input `1` is empty; the single row looks the digit up in an empty
symbol table, the undefined result is falsy, and the output is `0`. -/
theorem digit_input_single_row :
    tokenize "1" = Except.ok [Token.VAR '1'] ∧
    extractVariables (normalize "1") = [] ∧
    mkBooleanExpression "1" =
      Except.ok { originalExpression := "1", normalizedExpression := "1",
                  vars := [], ast := Ast.var '1',
                  truthTable := [{ assigns := [], output := 0 }] } := by
  refine ⟨by decide, by decide, by decide⟩

/-- Helper: reading an OR-concatenation of term lists is the OR of the
two readings. -/
theorem sopEval_append (L R : List (List Literal)) (σ : Char → Bool) :
    sopEval (L ++ R) σ = (sopEval L σ || sopEval R σ) := by
  simp [sopEval]

/-- Helper: reading a concatenated term is the AND of the two readings. -/
theorem termEval_append (t u : List Literal) (σ : Char → Bool) :
    termEval σ (t ++ u) = (termEval σ t && termEval σ u) := by
  simp [termEval]

/-- Helper: `List.any` respects pointwise equality of predicates. -/
theorem any_ext {α : Type} (l : List α) (f g : α → Bool) (h : ∀ x, f x = g x) :
    l.any f = l.any g := by
  induction l with
  | nil => rfl
  | cons x xs ih => simp [List.any_cons, h x, ih]

/-- Helper: a constant conjunct distributes out of `List.any`. -/
theorem any_and_left {α : Type} (b : Bool) (f : α → Bool) (l : List α) :
    (l.any fun x => b && f x) = (b && l.any f) := by
  cases b <;> simp

/-- Helper: reading the cartesian-product merge of two term lists is the
AND of the two readings. -/
theorem sopEval_cart (L R : List (List Literal)) (σ : Char → Bool) :
    sopEval (L.flatMap fun tl => R.map (fun tr => tl ++ tr)) σ =
      (sopEval L σ && sopEval R σ) := by
  induction L with
  | nil => simp [sopEval]
  | cons t L ih =>
    have hmap : sopEval (R.map (fun tr => t ++ tr)) σ = (termEval σ t && sopEval R σ) := by
      have : ∀ tr, termEval σ (t ++ tr) = (termEval σ t && termEval σ tr) :=
        fun tr => termEval_append t tr σ
      simp only [sopEval, List.any_map]
      calc R.any ((termEval σ) ∘ fun tr => t ++ tr)
          = R.any (fun tr => termEval σ t && termEval σ tr) := by
            refine any_ext R _ _ ?_
            intro tr
            exact this tr
        _ = (termEval σ t && R.any (termEval σ)) := any_and_left _ _ _
    calc sopEval ((t :: L).flatMap fun tl => R.map (fun tr => tl ++ tr)) σ
        = (sopEval (R.map (fun tr => t ++ tr)) σ ||
            sopEval (L.flatMap fun tl => R.map (fun tr => tl ++ tr)) σ) := by
          rw [List.flatMap_cons, sopEval_append]
      _ = ((termEval σ t && sopEval R σ) || (sopEval L σ && sopEval R σ)) := by
          rw [hmap, ih]
      _ = ((termEval σ t || sopEval L σ) && sopEval R σ) := by
          cases termEval σ t <;> cases sopEval L σ <;> simp
      _ = (sopEval (t :: L) σ && sopEval R σ) := by
          simp [sopEval]

/-- C10: on an AST in which every NOT operand is a bare variable, and
under every total boolean assignment, reading the extracted SOP (OR over
terms of the AND over literals, an inverted literal reading as the negated
variable) yields exactly the boolean the evaluator computes on the AST. -/
theorem sop_eval_agrees_with_ast (t : Ast) (h : notArgsAreVars t = true)
    (σ : Char → Bool) :
    evaluateAst t (fun v => some (σ v)) = some (sopEval (extractSOP t) σ) := by
  induction t with
  | var v => simp [evaluateAst, extractSOP, sopEval, termEval, litEval]
  | not op ih =>
    cases op with
    | var v =>
      simp [evaluateAst, extractSOP, sopEval, termEval, litEval, truthy]
    | not _ => simp [notArgsAreVars] at h
    | and _ _ => simp [notArgsAreVars] at h
    | or _ _ => simp [notArgsAreVars] at h
  | and l r ihl ihr =>
    have hlr : notArgsAreVars l = true ∧ notArgsAreVars r = true := by
      simpa [notArgsAreVars, Bool.and_eq_true] using h
    have el := ihl hlr.1
    have er := ihr hlr.2
    show (let a := evaluateAst l (fun v => some (σ v));
          if truthy a then evaluateAst r (fun v => some (σ v)) else a) =
        some (sopEval (extractSOP (Ast.and l r)) σ)
    rw [show extractSOP (Ast.and l r) =
        (extractSOP l).flatMap (fun tl => (extractSOP r).map (fun tr => tl ++ tr)) from rfl]
    rw [sopEval_cart, el, er]
    cases sopEval (extractSOP l) σ <;> simp [truthy]
  | or l r ihl ihr =>
    have hlr : notArgsAreVars l = true ∧ notArgsAreVars r = true := by
      simpa [notArgsAreVars, Bool.and_eq_true] using h
    have el := ihl hlr.1
    have er := ihr hlr.2
    show (let a := evaluateAst l (fun v => some (σ v));
          if truthy a then a else evaluateAst r (fun v => some (σ v))) =
        some (sopEval (extractSOP (Ast.or l r)) σ)
    rw [show extractSOP (Ast.or l r) = extractSOP l ++ extractSOP r from rfl]
    rw [sopEval_append, el, er]
    cases sopEval (extractSOP l) σ <;> simp [truthy]

/-- C10 witness: the AST of `a * (b | c)` with the first factor negated,
under the assignment making only `b` true. -/
theorem sop_eval_agrees_with_ast_witness :
    evaluateAst (Ast.and (Ast.not (Ast.var 'a')) (Ast.or (Ast.var 'b') (Ast.var 'c')))
        (fun v => some (v == 'b')) =
      some (sopEval
        (extractSOP (Ast.and (Ast.not (Ast.var 'a')) (Ast.or (Ast.var 'b') (Ast.var 'c'))))
        (fun v => v == 'b')) :=
  sop_eval_agrees_with_ast
    (Ast.and (Ast.not (Ast.var 'a')) (Ast.or (Ast.var 'b') (Ast.var 'c')))
    (by decide) (fun v => v == 'b')

/-- The characters the tokenizer accepts: whitespace (skipped),
parentheses, apostrophe, asterisk, vertical bar, lowercase letters and
digits.  Anything else hits the lexer error branch. -/
def allowedChar (c : Char) : Bool :=
  jsWhitespace c || c == '(' || c == ')' || c == '\x27' || c == '*' || c == '|' ||
  c.isLower || c.isDigit

/-- Helper: on an allowed head character, the scan either steps over the
character (whitespace) or prepends a token, so a lexer error of the tail
scan survives unchanged. -/
theorem tokenizeGo_cons_error (c : Char) (rest : List Char) (k : Nat) (m : String)
    (hc : allowedChar c = true)
    (h : tokenizeGo rest (k + 1) = Except.error m) :
    tokenizeGo (c :: rest) k = Except.error m := by
  by_cases h1 : jsWhitespace c
  · simp [tokenizeGo, h1, h]
  · by_cases h2 : c == '('
    · simp [tokenizeGo, h1, h2, h, Except.map]
    · by_cases h3 : c == ')'
      · simp [tokenizeGo, h1, h2, h3, h, Except.map]
      · by_cases h4 : c == '\x27'
        · simp [tokenizeGo, h1, h2, h3, h4, h, Except.map]
        · by_cases h5 : c == '*'
          · simp [tokenizeGo, h1, h2, h3, h4, h5, h, Except.map]
          · by_cases h6 : c == '|'
            · simp [tokenizeGo, h1, h2, h3, h4, h5, h6, h, Except.map]
            · by_cases h7 : (c.isLower || c.isDigit) = true
              · simp [tokenizeGo, h1, h2, h3, h4, h5, h6, h7, h, Except.map]
              · exfalso
                simp [allowedChar, h1, h2, h3, h4, h5, h6] at hc
                simp at h7
                cases hc with
                | inl hl => simp [hl] at h7
                | inr hr => simp [hr] at h7

/-- Helper: the scan starting at offset `k` fails at the first
disallowed character, reporting that character and its absolute
position. -/
theorem tokenizeGo_first_bad (cs : List Char) : ∀ (k i : Nat), i < cs.length →
    allowedChar (cs.getD i ' ') = false →
    (∀ j, j < i → allowedChar (cs.getD j ' ') = true) →
    tokenizeGo cs k = Except.error (lexErrMsg (cs.getD i ' ') (k + i)) := by
  induction cs with
  | nil =>
    intro k i hi _ _
    exact absurd hi (by simp)
  | cons c rest ih =>
    intro k i hi hbad hgood
    cases i with
    | zero =>
      simp only [List.getD_cons_zero] at hbad ⊢
      have hns : jsWhitespace c = false := by
        revert hbad
        simp [allowedChar]
        intro a _ _ _ _ _ _ _
        exact a
      simp only [allowedChar, Bool.or_eq_false_iff] at hbad
      rw [Nat.add_zero]
      simp [tokenizeGo, hbad.1.1.1.1.1.1.1, hbad.1.1.1.1.1.1.2, hbad.1.1.1.1.1.2,
        hbad.1.1.1.1.2, hbad.1.1.1.2, hbad.1.1.2, hbad.1.2, hbad.2]
    | succ i =>
      have hc : allowedChar c = true := by
        have := hgood 0 (Nat.succ_pos i)
        simpa using this
      have hrest := ih (k + 1) i (by simpa using hi)
        (by simpa using hbad)
        (by
          intro j hj
          have := hgood (j + 1) (by omega)
          simpa using this)
      have harith : k + 1 + i = k + (i + 1) := by omega
      rw [harith] at hrest
      have := tokenizeGo_cons_error c rest k _ hc hrest
      simpa using this

/-- C7: a character outside the tokenizer alphabet (parentheses,
apostrophe, asterisk, vertical bar, lowercase letters, digits,
whitespace) makes tokenization fail with the lexer error naming the
first such character and its zero-based index. -/
theorem tokenize_unknown_char (s : String) (i : Nat) (hi : i < s.data.length)
    (hbad : allowedChar (s.data.getD i ' ') = false)
    (hfirst : ∀ j, j < i → allowedChar (s.data.getD j ' ') = true) :
    tokenize s = Except.error (lexErrMsg (s.data.getD i ' ') i) := by
  have h := tokenizeGo_first_bad s.data 0 i hi hbad hfirst
  simpa [tokenize] using h

/-- C7 witness: the input `a#b` fails with the lexer error naming the
hash character at position 1. -/
theorem tokenize_unknown_char_witness :
    tokenize "a#b" = Except.error "Unknown character: \x27#\x27 at position 1" := by
  have h := tokenize_unknown_char "a#b" 1 (by decide) (by decide)
    (by
      intro j hj
      interval_cases j
      decide)
  have e1 : ("a#b".data.getD 1 ' ') = '#' := by decide
  rw [e1] at h
  have e2 : lexErrMsg '#' 1 = "Unknown character: \x27#\x27 at position 1" := by decide
  rw [e2] at h
  exact h

/-- Helper: entry `k` of the inner bit loop pairs variable `k` with bit
`(i >>> (n - 1 - (j + k))) &&& 1`, where `j` is the loop offset. -/
theorem rowBitsAux_getElem (n i : Nat) :
    ∀ (vs : List Char) (j k : Nat),
      (rowBitsAux n i vs j)[k]? =
        (vs[k]?).map (fun v => (v, (i >>> (n - 1 - (j + k))) &&& 1)) := by
  intro vs
  induction vs with
  | nil =>
    intro j k
    simp [rowBitsAux]
  | cons v rest ih =>
    intro j k
    cases k with
    | zero => simp [rowBitsAux]
    | succ k =>
      have harith : j + 1 + k = j + (k + 1) := by omega
      simp only [rowBitsAux, List.getElem?_cons_succ, ih (j + 1) k, harith]

/-- Helper: entry `j` of row `i`'s assignment pairs variable `j` with bit
`(i >>> (n - 1 - j)) &&& 1`. -/
theorem rowBits_getElem (vars : List Char) (i j : Nat) :
    (rowBits vars i)[j]? =
      (vars[j]?).map (fun v => (v, (i >>> (vars.length - 1 - j)) &&& 1)) := by
  have h := rowBitsAux_getElem vars.length i vars 0 j
  simpa [rowBits] using h

/-- Helper: the truth table has one row per integer below `2 ^ n`. -/
theorem generateTruthTable_length (vars : List Char) (t : Ast) :
    (generateTruthTable vars t).length = 2 ^ vars.length := by
  simp [generateTruthTable]

/-- Helper: row `i` of the truth table is the bit assignment of `i`
together with the evaluated output bit. -/
theorem generateTruthTable_getElem (vars : List Char) (t : Ast) (i : Nat)
    (hi : i < 2 ^ vars.length) :
    (generateTruthTable vars t)[i]? =
      some { assigns := rowBits vars i,
             output := if truthy (evaluateAst t (symbolTableOf (rowBits vars i)))
                       then 1 else 0 } := by
  simp [generateTruthTable, List.getElem?_map, List.getElem?_range, hi]

/-- C1: a successfully constructed expression object carries a truth
table of exactly `2 ^ n` rows for `n` extracted variables, row `i` pairs
the variable at sorted index `j` with bit `(i >>> (n - 1 - j)) &&& 1`
(first variable most significant), and the output bit is `1` exactly when
the AST evaluates truthily under that row's symbol table. -/
theorem truthTable_rows_spec (s : String) (be : BooleanExpression)
    (h : mkBooleanExpression s = Except.ok be) :
    be.truthTable.length = 2 ^ be.vars.length ∧
    ∀ i, i < 2 ^ be.vars.length →
      ∃ row, be.truthTable[i]? = some row ∧
        (∀ j, row.assigns[j]? = (be.vars[j]?).map
          (fun v => (v, (i >>> (be.vars.length - 1 - j)) &&& 1))) ∧
        row.output = (if truthy (evaluateAst be.ast (symbolTableOf row.assigns))
                      then 1 else 0) := by
  have hbe : be.truthTable = generateTruthTable be.vars be.ast := by
    unfold mkBooleanExpression at h
    simp only [Bind.bind, Except.bind] at h
    cases hp : parse (normalize s) with
    | error e =>
      rw [hp] at h
      simp at h
    | ok t =>
      rw [hp] at h
      simp only [Except.ok.injEq] at h
      rw [← h]
  constructor
  · rw [hbe, generateTruthTable_length]
  · intro i hi
    refine ⟨{ assigns := rowBits be.vars i,
              output := if truthy (evaluateAst be.ast (symbolTableOf (rowBits be.vars i)))
                        then 1 else 0 }, ?_, ?_, rfl⟩
    · rw [hbe, generateTruthTable_getElem be.vars be.ast i hi]
    · intro j
      exact rowBits_getElem be.vars i j

/-- C1 witness: the pipeline on the input `1` (no extracted variables)
produces its one-row table, of length `2 ^ 0`. -/
theorem truthTable_rows_spec_witness :
    mkBooleanExpression "1" =
      Except.ok { originalExpression := "1", normalizedExpression := "1",
                  vars := [], ast := Ast.var '1',
                  truthTable := [{ assigns := [], output := 0 }] } ∧
    (BooleanExpression.truthTable
      { originalExpression := "1", normalizedExpression := "1",
        vars := [], ast := Ast.var '1',
        truthTable := [{ assigns := [], output := 0 }] }).length =
      2 ^ (BooleanExpression.vars
        { originalExpression := "1", normalizedExpression := "1",
          vars := [], ast := Ast.var '1',
          truthTable := [{ assigns := [], output := 0 }] }).length := by
  have hmk : mkBooleanExpression "1" =
      Except.ok { originalExpression := "1", normalizedExpression := "1",
                  vars := [], ast := Ast.var '1',
                  truthTable := [{ assigns := [], output := 0 }] } := by decide
  exact ⟨hmk, (truthTable_rows_spec "1" _ hmk).1⟩

end BoolViz
